import Mathlib

/-!
Verification of the SQL lineage extractor (`parse_sql.py`, `make_sql_graph.py`).

The Python source is shallowly embedded below.  Strings are modelled as
`List Char` (ASCII semantics for case folding, whitespace and word
characters), and every regular-expression search used by the parser is
embedded as an explicit backtracking matcher that follows the Python `re`
engine's strategy for that concrete pattern: alternatives are tried in
pattern order, greedy quantifiers try the longest candidate first,
non-greedy ones the shortest, and a quantifier over a character class is
committed to its maximal run whenever the following pattern element cannot
begin with a character of that class (which makes backtracking over that
run pointless, as in the Python engine).
-/

namespace SqlLineage

/-! ### Character classes (ASCII model of Python's `re` classes) -/

/-- Python `\s` (ASCII range). -/
def isSpaceChar (c : Char) : Bool :=
  c = ' ' || c = '\t' || c = '\n' || c = '\r' || c = '\x0b' || c = '\x0c'

/-- Python `\w` (ASCII range): letters, digits, underscore. -/
def isWordChar (c : Char) : Bool :=
  c.isAlpha || c.isDigit || c = '_'

/-- The parser's identifier class `[A-Z0-9_\.$\"-]` under `re.IGNORECASE`. -/
def isIdentChar (c : Char) : Bool :=
  c.isAlpha || c.isDigit || c = '_' || c = '.' || c = '$' || c = '"' || c = '-'

/-- Line-break characters recognised by the model of `str.splitlines`. -/
def isLineBreak (c : Char) : Bool :=
  c = '\n' || c = '\r' || c = '\x0b' || c = '\x0c'

/-! ### Basic string helpers (`upper`, `strip`, `split`, substring test) -/

def upperChars (l : List Char) : List Char := l.map Char.toUpper

def upperStr (s : String) : String := String.mk (upperChars s.data)

/-- Drop matching characters from both ends, like Python's `str.strip`. -/
def stripBoth (p : Char → Bool) (l : List Char) : List Char :=
  ((l.dropWhile p).reverse.dropWhile p).reverse

def stripWs (l : List Char) : List Char := stripBoth isSpaceChar l

def stripQuotes (l : List Char) : List Char := stripBoth (fun c => c = '"') l

/-- Python `str.split(sep)` for a single-character separator (keeps
empties).  A non-separator character is prepended to the first piece of
the tail's split (which is never the empty list of pieces). -/
def splitOnChar (sep : Char) : List Char → List (List Char)
  | [] => [[]]
  | c :: rest =>
    if c = sep then [] :: splitOnChar sep rest
    else (c :: (splitOnChar sep rest).headI) :: (splitOnChar sep rest).tail

/-- Python's `in` substring test. -/
def containsSub (pat : List Char) : List Char → Bool
  | [] => pat.isEmpty
  | c :: rest => pat.isPrefixOf (c :: rest) || containsSub pat rest

/-! ### Position-based scanning primitives -/

/-- Length of the maximal run of characters satisfying `p` starting at `i`. -/
def runLen (p : Char → Bool) (s : List Char) (i : Nat) : Nat :=
  ((s.drop i).takeWhile p).length

/-- The slice of `s` of length `n` starting at `i`. -/
def seg (s : List Char) (i n : Nat) : List Char := (s.drop i).take n

/-- The slice of `s` from position `a` (inclusive) to `b` (exclusive). -/
def segTo (s : List Char) (a b : Nat) : List Char := seg s a (b - a)

/-- Is position `i` occupied by a word character? (out of range: no) -/
def wordAt (s : List Char) (i : Nat) : Bool :=
  match s.get? i with
  | some c => isWordChar c
  | none => false

/-- Python's `\b`: the word-character flag changes between `i - 1` and `i`. -/
def boundaryAt (s : List Char) (i : Nat) : Bool :=
  (match i with
   | 0 => false
   | j + 1 => wordAt s j) != wordAt s i

/-- Case-insensitive literal match (the literal is given upper-cased);
returns the position just past the literal. -/
def matchLit (w : String) (s : List Char) (i : Nat) : Option Nat :=
  let n := w.data.length
  let piece := seg s i n
  if piece.length = n ∧ upperChars piece = w.data then some (i + n) else none

/-- Match one specific character. -/
def matchChar (c : Char) (s : List Char) (i : Nat) : Option Nat :=
  match s.get? i with
  | some d => if d = c then some (i + 1) else none
  | none => none

/-- `\s+`: committed to the maximal run (the following pattern elements in
every use never start with whitespace). -/
def wsPlus (s : List Char) (i : Nat) : Option Nat :=
  let n := runLen isSpaceChar s i
  if n = 0 then none else some (i + n)

/-- `\s*`, committed to the maximal run (same justification as `wsPlus`). -/
def wsStar (s : List Char) (i : Nat) : Nat :=
  i + runLen isSpaceChar s i

/-- Leftmost-match search: try `f` at positions `0, 1, …, len`. -/
def searchPos (len : Nat) (f : Nat → Option α) : Option α :=
  (List.range (len + 1)).findSome? f

/-- Leftmost-match search starting at position `i`. -/
def searchPosFrom (len i : Nat) (f : Nat → Option α) : Option α :=
  (List.range' i (len + 1 - i)).findSome? f

/-- Candidate lengths for a greedy `X+` over a class with maximal run `n`:
`n, n-1, …, 1`. -/
def descLens (n : Nat) : List Nat := (List.range' 1 n).reverse

/-- Candidate lengths for a non-greedy `X+?`: `1, 2, …, n`. -/
def ascLens (n : Nat) : List Nat := List.range' 1 n

/-- `re.finditer`: repeatedly take the leftmost match, continuing at its
end position.  `fuel` bounds the number of matches (every match here
consumes at least one character). -/
def findIterAux (m : Nat → Option (α × Nat)) (len : Nat) :
    Nat → Nat → List α
  | 0, _ => []
  | fuel + 1, i =>
    match searchPosFrom len i (fun j => m j) with
    | none => []
    | some (a, e) => a :: findIterAux m len fuel e

def findIter (m : Nat → Option (α × Nat)) (len : Nat) : List α :=
  findIterAux m len (len + 1) 0

/-! ### The parser's regular expressions, embedded pattern by pattern -/

/-- `_SET_CATALOG_RE = \bSET\s+CATALOG\s+([A-Z0-9_]+)\b` (IGNORECASE),
matched at position `i`; returns the captured group. The trailing `\b` is
automatic after the maximal run of word characters. -/
def matchSetCatalogAt (s : List Char) (i : Nat) : Option (List Char) := do
  guard (boundaryAt s i)
  let j ← matchLit "SET" s i
  let j ← wsPlus s j
  let j ← matchLit "CATALOG" s j
  let j ← wsPlus s j
  let n := runLen isWordChar s j
  guard (n ≠ 0)
  return seg s j n

/-- `re.search` of `_SET_CATALOG_RE`. -/
def setCatalogSearch (s : List Char) : Option (List Char) :=
  searchPos s.length (matchSetCatalogAt s)

/-- The optional `(?:OR\s+REPLACE\s+)?` prefix.  If it matches, the
alternative of skipping it can never succeed (the following literal would
have to match at `O`), so the greedy choice is committed. -/
def orReplaceOpt (s : List Char) (j : Nat) : Nat :=
  match (do
      let a ← matchLit "OR" s j
      let a ← wsPlus s a
      let a ← matchLit "REPLACE" s a
      wsPlus s a) with
  | some k => k
  | none => j

/-- The optional captured group `((?:TEMP|TEMPORARY)\s+)?`.  `TEMP` is
tried before `TEMPORARY` (pattern order); if either matches, skipping the
group cannot succeed (`TABLE` would have to match at `T`, `E`). -/
def tempOpt (s : List Char) (j : Nat) : Bool × Nat :=
  match (do
      let a ← matchLit "TEMP" s j
      wsPlus s a) with
  | some k => (true, k)
  | none =>
    match (do
        let a ← matchLit "TEMPORARY" s j
        wsPlus s a) with
    | some k => (true, k)
    | none => (false, j)

/-- `_CREATE_TABLE_RE =
`\bCREATE\s+(?:OR\s+REPLACE\s+)?((?:TEMP|TEMPORARY)\s+)?TABLE\s+(ident+)`
matched at `i`; returns (group 1 present?, group 2). -/
def matchCreateTableAt (s : List Char) (i : Nat) : Option (Bool × List Char) := do
  guard (boundaryAt s i)
  let j ← matchLit "CREATE" s i
  let j ← wsPlus s j
  let j := orReplaceOpt s j
  let (hasTemp, j) := tempOpt s j
  let j ← matchLit "TABLE" s j
  let j ← wsPlus s j
  let n := runLen isIdentChar s j
  guard (n ≠ 0)
  return (hasTemp, seg s j n)

/-- `_CREATE_VIEW_RE = \bCREATE\s+(?:OR\s+REPLACE\s+)?VIEW\s+(ident+)`. -/
def matchCreateViewAt (s : List Char) (i : Nat) : Option (List Char) := do
  guard (boundaryAt s i)
  let j ← matchLit "CREATE" s i
  let j ← wsPlus s j
  let j := orReplaceOpt s j
  let j ← matchLit "VIEW" s j
  let j ← wsPlus s j
  let n := runLen isIdentChar s j
  guard (n ≠ 0)
  return seg s j n

/-- `_INSERT_INTO_RE = \bINSERT\s+INTO\s+(ident+)`. -/
def matchInsertIntoAt (s : List Char) (i : Nat) : Option (List Char) := do
  guard (boundaryAt s i)
  let j ← matchLit "INSERT" s i
  let j ← wsPlus s j
  let j ← matchLit "INTO" s j
  let j ← wsPlus s j
  let n := runLen isIdentChar s j
  guard (n ≠ 0)
  return seg s j n

/-- `_statement_kind`: the four patterns in the source's priority order;
returns `(kind, raw destination)`. -/
def statementKind (stmt : List Char) : Option (String × String) :=
  match searchPos stmt.length (matchCreateTableAt stmt) with
  | some (hasTemp, dest) =>
    some (if hasTemp then "CREATE TEMP TABLE" else "CREATE TABLE", String.mk dest)
  | none =>
    match searchPos stmt.length (matchCreateViewAt stmt) with
    | some dest => some ("CREATE VIEW", String.mk dest)
    | none =>
      match searchPos stmt.length (matchInsertIntoAt stmt) with
      | some dest => some ("INSERT INTO", String.mk dest)
      | none =>
        match setCatalogSearch stmt with
        | some g => some ("SET CATALOG", String.mk g)
        | none => none

/-- `\bWITH\b` matched at `i` (both boundaries checked). -/
def matchWithAt (s : List Char) (i : Nat) : Option Nat := do
  guard (boundaryAt s i)
  let j ← matchLit "WITH" s i
  guard (boundaryAt s j)
  return j

/-- `\bSELECT\b` matched at `i`; returns `i` itself on success. -/
def matchSelectStartAt (s : List Char) (i : Nat) : Option Nat := do
  guard (boundaryAt s i)
  let j ← matchLit "SELECT" s i
  guard (boundaryAt s j)
  return i

/-- `_WITH_HEADER_RE = \bWITH\b(.*?)\bSELECT\b` (DOTALL): the leftmost
`WITH`, then the non-greedy gap runs to the first following `SELECT`.
(If the first `WITH` has no `SELECT` after it, no later one does either,
so this is the regex's leftmost match.) -/
def withHeaderSearch (s : List Char) : Option (List Char) := do
  let j ← searchPos s.length (matchWithAt s)
  let k ← searchPosFrom s.length j (matchSelectStartAt s)
  return segTo s j k

/-- `_CTE_NAME_RE = \b(ident+)\s+AS\s*\(` matched at `i`; returns
(group 1, end position).  The identifier run is committed maximally:
a shorter run would leave an identifier character where `\s+` must match. -/
def matchCteAt (s : List Char) (i : Nat) : Option (List Char × Nat) := do
  guard (boundaryAt s i)
  let n := runLen isIdentChar s i
  guard (n ≠ 0)
  let j ← wsPlus s (i + n)
  let j ← matchLit "AS" s j
  let j := wsStar s j
  let j ← matchChar '(' s j
  return (seg s i n, j)

/-- `_extract_cte_names`: names in the `WITH … SELECT` header, quote-
stripped, non-empty, upper-cased. -/
def extractCteNames (stmt : List Char) : List String :=
  match withHeaderSearch stmt with
  | none => []
  | some header =>
    (findIter (matchCteAt header) header.length).filterMap fun raw =>
      let candidate := stripQuotes raw
      if candidate = [] then none else some (String.mk (upperChars candidate))

/-- The optional alias tail `(?:\s+(?:AS\s+)?(ident+))?` of `_FROM_RE`:
returns the end position of the whole match.  Nothing follows in the
pattern, so the greedy choices cannot cause an overall failure and the
first successful alternative (AS-alias, bare alias, no alias) is final. -/
def fromAliasEnd (s : List Char) (e : Nat) : Nat :=
  match (do
      let p ← wsPlus s e
      match (do
          let a ← matchLit "AS" s p
          let a ← wsPlus s a
          let m := runLen isIdentChar s a
          guard (m ≠ 0)
          pure (a + m)) with
      | some q => pure q
      | none => do
        let m := runLen isIdentChar s p
        guard (m ≠ 0)
        pure (p + m)) with
  | some q => q
  | none => e

/-- `_FROM_RE = \bFROM\s+(ident+)(?:\s+(?:AS\s+)?(ident+))?` matched at
`i`; returns (group 1, end position). -/
def matchFromAt (s : List Char) (i : Nat) : Option (List Char × Nat) := do
  guard (boundaryAt s i)
  let j ← matchLit "FROM" s i
  let j ← wsPlus s j
  let n := runLen isIdentChar s j
  guard (n ≠ 0)
  return (seg s j n, fromAliasEnd s (j + n))

/-- All `_FROM_RE.finditer` matches (group 1 of each). -/
def fromIter (s : List Char) : List (List Char) :=
  findIter (matchFromAt s) s.length

/-- The join-type alternatives of `_JOIN_RE`, in pattern order. -/
def joinTypes : List String := ["LEFT", "RIGHT", "FULL", "INNER", "CROSS"]

/-- The keyword alternatives `\bJOIN\b|\bWHERE\b|…|\bQUALIFY\b` of the
lookahead in `_JOIN_RE`. -/
def joinStopKeywords : List String :=
  ["JOIN", "WHERE", "GROUP", "ORDER", "HAVING", "UNION", "EXCEPT",
   "INTERSECT", "LIMIT", "QUALIFY"]

/-- One keyword alternative `\bKW\b` of the lookahead, tested at `p`. -/
def lookKeyword (s : List Char) (p : Nat) (w : String) : Bool :=
  boundaryAt s p &&
    (match matchLit w s p with
     | some q => boundaryAt s q
     | none => false)

/-- The `\b(?:LEFT|RIGHT|FULL|INNER|CROSS)\s+JOIN\b` lookahead
alternative, tested at `p`. -/
def lookTypeJoin (s : List Char) (p : Nat) : Bool :=
  boundaryAt s p &&
    joinTypes.any fun t =>
      match matchLit t s p with
      | none => false
      | some q =>
        match wsPlus s q with
        | none => false
        | some r =>
          match matchLit "JOIN" s r with
          | none => false
          | some u => boundaryAt s u

/-- The full lookahead of `_JOIN_RE` (including the `$` alternative),
tested at `p`. -/
def lookaheadAt (s : List Char) (len p : Nat) : Bool :=
  p == len || lookTypeJoin s p || joinStopKeywords.any (lookKeyword s p)

/-- The optional tail `(?:\s+ON\s+(.*?))?(?=lookahead)` of `_JOIN_RE`
starting at `p`: if `\s+ON\s+` matches, the non-greedy gap grows to the
first position where the lookahead holds (the `$` alternative guarantees
success); otherwise the group is absent and the lookahead must hold at
`p` itself.  Returns (group 4, end position). -/
def joinOnTail (s : List Char) (len p : Nat) : Option (Option (List Char) × Nat) :=
  match (do
      let q ← wsPlus s p
      let q ← matchLit "ON" s q
      wsPlus s q) with
  | some q3 =>
    (List.range' q3 (len + 1 - q3)).findSome? fun e =>
      if lookaheadAt s len e then some (some (segTo s q3 e), e) else none
  | none => if lookaheadAt s len p then some (none, p) else none

/-- The optional alias group `(?:\s+(?:AS\s+)?(ident+))?` of `_JOIN_RE`
followed by `joinOnTail`, starting at `p2` (just past group 2).  The
alternatives are explored in the engine's order: alias with `AS` (alias
lengths longest first), alias without `AS`, no alias; each choice is
checked against the rest of the pattern before backtracking. -/
def joinAliasOn (s : List Char) (len p2 : Nat) : Option (Option (List Char) × Nat) :=
  (match wsPlus s p2 with
   | some p3 =>
     (match (do
          let a ← matchLit "AS" s p3
          wsPlus s a) with
      | some pB =>
        (descLens (runLen isIdentChar s pB)).findSome? fun l =>
          joinOnTail s len (pB + l)
      | none => none).orElse fun _ =>
        (descLens (runLen isIdentChar s p3)).findSome? fun l =>
          joinOnTail s len (p3 + l)
   | none => none).orElse fun _ => joinOnTail s len p2

/-- `_JOIN_RE` matched at `i`; returns (group 1, group 2, group 4, end).
Group 2's greedy identifier run backtracks (longest first) because the
lookahead at the end of the pattern can fail. -/
def matchJoinAt (s : List Char) (len i : Nat) :
    Option ((Option String × List Char × Option (List Char)) × Nat) := do
  guard (boundaryAt s i)
  let (g1, j) :=
    match joinTypes.findSome? (fun t => (matchLit t s i).map fun j => (t, j)) with
    | some (t, j) => (some t, j)
    | none => (none, i)
  let j3 ← matchLit "JOIN" s (wsStar s j)
  let j4 ← wsPlus s j3
  let (l2, res) ← (descLens (runLen isIdentChar s j4)).findSome? fun l =>
    (joinAliasOn s len (j4 + l)).map fun r => (l, r)
  return ((g1, seg s j4 l2, res.1), res.2)

/-- All `_JOIN_RE.finditer` matches. -/
def joinIter (s : List Char) : List (Option String × List Char × Option (List Char)) :=
  findIter (matchJoinAt s s.length) s.length

/-- `_ON_KEY_RE = (ident+?)\s*=\s*(ident+?)` matched at `i`: group 1 is
non-greedy (shortest first), and group 2, non-greedy at the end of the
pattern, always captures exactly one identifier character. -/
def matchOnKeyAt (s : List Char) (i : Nat) : Option (List Char × Char) := do
  let m := runLen isIdentChar s i
  guard (m ≠ 0)
  (ascLens m).findSome? fun l => do
    let p ← matchChar '=' s (wsStar s (i + l))
    let p4 := wsStar s p
    let c ← s.get? p4
    guard (isIdentChar c)
    pure (seg s i l, c)

/-! ### Name normalisation and classification helpers -/

/-- `_normalize_part`: strip whitespace, strip quotes, upper-case. -/
def normalizePart (p : List Char) : List Char :=
  upperChars (stripQuotes (stripWs p))

/-- `_qualify`, step 1: split on `.`, strip whitespace, keep the
non-empty pieces, normalise each (`parts` and `cleaned` in the source). -/
def qualifyParts (name : String) : List (List Char) :=
  (((splitOnChar '.' name.data).map stripWs).filter (fun p => p ≠ [])).map
    normalizePart

/-- `_qualify`: canonicalise a raw dotted identifier against the current
catalog, producing `CATALOG.SCHEMA.TABLE`.  The four arity cases of the
source pick `(catalog, schema, table)` (3+ pieces: the last three; 2:
current catalog supplies the catalog; 1: schema defaults to `DBO`; 0:
the `?` fallback), here each rendered directly. -/
def qualify (name : String) (current_catalog : String) : String :=
  match (qualifyParts name).reverse with
  | t :: sc :: ca :: _ => String.mk (ca ++ '.' :: sc ++ '.' :: t)
  | [t, sc] => String.mk (current_catalog.data ++ '.' :: sc ++ '.' :: t)
  | [t] => String.mk (current_catalog.data ++ '.' :: "DBO".data ++ '.' :: t)
  | [] =>
    String.mk (current_catalog.data ++ '.' :: "DBO".data ++ '.' :: "?".data)

/-- `_is_temporary`: `TEMP` or `TMP` occurs in the upper-cased name. -/
def isTemporary (name : String) : Bool :=
  containsSub "TEMP".data (upperChars name.data) ||
    containsSub "TMP".data (upperChars name.data)

/-- `qualified_target.split('.')[-1]`. -/
def lastDotSegment (s : String) : String :=
  String.mk ((splitOnChar '.' s.data).getLastD [])

/-- `_extract_join_key`. -/
def extractJoinKey : Option String → Option String
  | none => none
  | some on_clause =>
    if on_clause = "" then none
    else
      match searchPos on_clause.data.length (matchOnKeyAt on_clause.data) with
      | none => none
      | some (g1, c2) =>
        let left :=
          upperChars (stripQuotes ((splitOnChar '.' g1).getLastD []))
        let right :=
          upperChars (stripQuotes ((splitOnChar '.' [c2]).getLastD []))
        some (if left = right then String.mk left
              else String.mk (left ++ '=' :: right))

/-! ### Source extraction (`_collect_sources`) -/

structure JoinInfo where
  table : String
  join_type : String
  join_key : Option String
deriving DecidableEq, Repr

/-- The FROM loop of `_collect_sources`: take the first match that is not
a parenthesised subquery and not a CTE name. -/
def pickMainFrom (cte_names : List String) (current_catalog : String) :
    List (List Char) → Option String
  | [] => none
  | raw :: rest =>
    if (stripWs raw).head? = some '(' then
      pickMainFrom cte_names current_catalog rest
    else
      let base := stripQuotes raw
      if upperStr (String.mk base) ∈ cte_names then
        pickMainFrom cte_names current_catalog rest
      else some (qualify (String.mk base) current_catalog)

/-- The JOIN loop of `_collect_sources`. -/
def buildJoins (cte_names : List String) (current_catalog : String) :
    List (Option String × List Char × Option (List Char)) → List JoinInfo
  | [] => []
  | (g1, g2, g4) :: rest =>
    if (stripWs g2).head? = some '(' then
      buildJoins cte_names current_catalog rest
    else
      let base := stripQuotes g2
      if upperStr (String.mk base) ∈ cte_names then
        buildJoins cte_names current_catalog rest
      else
        { table := qualify (String.mk base) current_catalog,
          join_type := match g1 with | some t => t | none => "INNER",
          join_key := extractJoinKey (g4.map String.mk) } ::
          buildJoins cte_names current_catalog rest

/-- `_collect_sources`: the main FROM source and the join list; when no
main source is found the join list is empty by construction. -/
def collectSources (stmt : List Char) (current_catalog : String) :
    Option String × List JoinInfo :=
  let cte_names := extractCteNames stmt
  match pickMainFrom cte_names current_catalog (fromIter stmt) with
  | none => (none, [])
  | some main_from =>
    (some main_from, buildJoins cte_names current_catalog (joinIter stmt))

/-! ### Text normaliser (`_strip_comments`) and splitter -/

/-- Model of `str.splitlines` (ASCII terminators; `\r\n` counts as one;
no empty trailing line for a trailing terminator). -/
def splitLinesAux (acc : List Char) : List Char → List (List Char)
  | [] => [acc.reverse]
  | '\r' :: '\n' :: rest =>
    acc.reverse :: (match rest with | [] => [] | _ => splitLinesAux [] rest)
  | c :: rest =>
    if isLineBreak c then
      acc.reverse :: (match rest with | [] => [] | _ => splitLinesAux [] rest)
    else splitLinesAux (c :: acc) rest

def splitLines (l : List Char) : List (List Char) :=
  match l with
  | [] => []
  | _ => splitLinesAux [] l

/-- The per-line comment-stripping scan of `_strip_comments`: `/* … */`
block comments (the flag survives line ends; an unterminated block
consumes the rest), `--` line comments.  Returns the cleaned line and
the block flag after the line. -/
def stripLineAux : Bool → List Char → List Char × Bool
  | inBlock, [] => ([], inBlock)
  | false, '/' :: '*' :: rest => stripLineAux true rest
  | true, '*' :: '/' :: rest => stripLineAux false rest
  | true, _ :: rest => stripLineAux true rest
  | false, '-' :: '-' :: _ => ([], false)
  | false, c :: rest =>
    let (r, b) := stripLineAux false rest
    (c :: r, b)

/-- The line loop of `_strip_comments`: collect cleaned lines and, when
not inside a block comment after the line, record `SET CATALOG` hits as
(1-based line number, upper-cased name). -/
def stripLinesLoop : Bool → Nat → List (List Char) →
    List (List Char) × List (Nat × String)
  | _, _, [] => ([], [])
  | inBlock, lineno, line :: rest =>
    let (cleaned, inBlock') := stripLineAux inBlock line
    let (restLines, hits) := stripLinesLoop inBlock' (lineno + 1) rest
    let hits' :=
      if inBlock' then hits
      else
        match setCatalogSearch cleaned with
        | some g => (lineno, upperStr (String.mk g)) :: hits
        | none => hits
    (cleaned :: restLines, hits')

/-- `re.sub(r"\s+", " ", …)`: collapse every whitespace run to one space. -/
def collapseWsAux : Bool → List Char → List Char
  | _, [] => []
  | inRun, c :: rest =>
    if isSpaceChar c then
      (if inRun then [] else [' ']) ++ collapseWsAux true rest
    else c :: collapseWsAux false rest

/-- `_strip_comments` on file text: returns the sanitised text and the
catalog hits. -/
def stripComments (text : String) : List Char × List (Nat × String) :=
  let (lines, hits) := stripLinesLoop false 1 (splitLines text.data)
  (collapseWsAux false (List.intercalate ['\n'] lines), hits)

/-- `_split_statements`: split on `;`, strip, drop empties. -/
def splitStatements (sql : List Char) : List (List Char) :=
  ((splitOnChar ';' sql).map stripWs).filter (fun st => st ≠ [])

/-! ### Per-file parser (`parse_file`) -/

structure StatementInfo where
  id_stmt : Nat
  file : String
  target : String
  kind : String
  from_main : Option String
  joins : List JoinInfo
deriving DecidableEq, Repr

/-- The mutable state of `parse_file`, together with its accumulating
outputs. `nodes`, `created`, `temporals` and `temp_known` are Python
sets, modelled as duplicate-free lists. -/
structure PState where
  nodes : List String
  created : List String
  temporals : List String
  edges_lineage : List (String × String × String × String)
  edges_pairs : List (String × String × String × Option String × String)
  edges_usage : List (String × String × String × String)
  statements : List StatementInfo
  catalogs : List (String × Nat × String)
  current_catalog : String
  hit_index : Nat
  temp_known : List String
  stmt_counter : Nat
deriving DecidableEq, Repr

/-- `set.add`. -/
def insertS (x : String) (l : List String) : List String :=
  if x ∈ l then l else l ++ [x]

/-- The `for join in joins` loop body: add the join table to the node
set and, when a main source exists, append a join-pair edge. -/
def joinLoop (main_from : Option String) (path : String) :
    List JoinInfo → List String →
    List (String × String × String × Option String × String) →
    List String × List (String × String × String × Option String × String)
  | [], nodes, pairs => (nodes, pairs)
  | j :: js, nodes, pairs =>
    let nodes' := insertS j.table nodes
    let pairs' :=
      match main_from with
      | some m => pairs ++ [(m, j.table, j.join_type, j.join_key, path)]
      | none => pairs
    joinLoop main_from path js nodes' pairs'

/-- One iteration of the statement loop of `parse_file`. -/
def stepStmt (path : String) (catalog_hits : List (Nat × String))
    (st : PState) (stmt : List Char) : PState :=
  match statementKind stmt with
  | none => st
  | some (kind, dest_raw) =>
    if kind = "SET CATALOG" then
      if dest_raw ≠ "" then
        let newCat := upperStr dest_raw
        match catalog_hits.get? st.hit_index with
        | some (line_no, catalog_name) =>
          { st with current_catalog := newCat,
                    hit_index := st.hit_index + 1,
                    catalogs := st.catalogs ++ [(path, line_no, catalog_name)] }
        | none =>
          { st with current_catalog := newCat,
                    catalogs := st.catalogs ++ [(path, 0, newCat)] }
      else st
    else if dest_raw = "" then st
    else
      let qualified_target := qualify dest_raw st.current_catalog
      let counter := st.stmt_counter + 1
      let main_from := (collectSources stmt st.current_catalog).1
      let joins := (collectSources stmt st.current_catalog).2
      let nodes1 := insertS qualified_target st.nodes
      let created1 := insertS qualified_target st.created
      let temporals1 :=
        if isTemporary (lastDotSegment qualified_target) then
          insertS qualified_target st.temporals
        else st.temporals
      let temp_known1 :=
        if isTemporary (lastDotSegment qualified_target) then
          insertS qualified_target st.temp_known
        else st.temp_known
      let nodes2 :=
        match main_from with
        | some m => insertS m nodes1
        | none => nodes1
      let lineage1 :=
        match main_from with
        | some m => st.edges_lineage ++ [(m, qualified_target, "FROM", path)]
        | none => st.edges_lineage
      let nodes3 := (joinLoop main_from path joins nodes2 st.edges_pairs).1
      let pairs1 := (joinLoop main_from path joins nodes2 st.edges_pairs).2
      let sources_for_usage :=
        main_from.toList ++ joins.map (fun j => j.table)
      let usage1 :=
        st.edges_usage ++
          (sources_for_usage.filter (fun src => src ∈ temp_known1)).map
            (fun src => (src, qualified_target, "UTILIZADO EN", path))
      { st with
          nodes := nodes3, created := created1, temporals := temporals1,
          temp_known := temp_known1,
          edges_lineage := lineage1, edges_pairs := pairs1,
          edges_usage := usage1,
          stmt_counter := counter,
          statements := st.statements ++
            [{ id_stmt := counter, file := path, target := qualified_target,
               kind := kind, from_main := main_from, joins := joins }] }

def initState (default_catalog_upper : String) : PState :=
  { nodes := [], created := [], temporals := [], edges_lineage := [],
    edges_pairs := [], edges_usage := [], statements := [], catalogs := [],
    current_catalog := default_catalog_upper, hit_index := 0,
    temp_known := [], stmt_counter := 0 }

/-- `parse_file` on a file's path and content. -/
def parseFile (path text default_catalog : String) : PState :=
  (splitStatements (stripComments text).1).foldl
    (stepStmt path (stripComments text).2)
    (initState (upperStr default_catalog))

/-! ### Cross-file aggregation (`_aggregate_results`, edge part) -/

structure SqlFile where
  path : String
  text : String

structure AggResult where
  all_nodes : List String
  temporals : List String
  edges_lineage : List (String × String × String × String)
  edges_pairs : List (String × String × String × Option String × String)
  edges_usage : List (String × String × String × String)
  statements : List StatementInfo
  catalogs : List (String × Nat × String)

/-- `list(dict.fromkeys(…))`: deduplicate keeping first occurrences in
order. -/
def dedupKeepFirst [DecidableEq α] (seen : List α) : List α → List α
  | [] => []
  | x :: xs =>
    if x ∈ seen then dedupKeepFirst seen xs
    else x :: dedupKeepFirst (x :: seen) xs

/-- The per-file accumulation loop of `_aggregate_results` (node/edge
fields; the creation/consumer maps are not modelled). -/
def aggregateRaw (files : List SqlFile) (default_catalog : String) : AggResult :=
  files.foldl
    (fun acc f =>
      let r := parseFile f.path f.text default_catalog
      { all_nodes := acc.all_nodes ++ r.nodes.filter (fun n => n ∉ acc.all_nodes),
        temporals := acc.temporals ++ r.temporals.filter (fun n => n ∉ acc.temporals),
        edges_lineage := acc.edges_lineage ++ r.edges_lineage,
        edges_pairs := acc.edges_pairs ++ r.edges_pairs,
        edges_usage := acc.edges_usage ++ r.edges_usage,
        statements := acc.statements ++ r.statements,
        catalogs := acc.catalogs ++ r.catalogs })
    { all_nodes := [], temporals := [], edges_lineage := [],
      edges_pairs := [], edges_usage := [], statements := [], catalogs := [] }

/-- `_aggregate_results`: after the loop, pair and usage edges are
deduplicated by full-tuple equality; lineage edges are not. -/
def aggregate (files : List SqlFile) (default_catalog : String) : AggResult :=
  let raw := aggregateRaw files default_catalog
  { raw with
      edges_pairs := dedupKeepFirst [] raw.edges_pairs,
      edges_usage := dedupKeepFirst [] raw.edges_usage }

/-! ### Helper lemmas about the state machine -/

theorem mem_insertS_self (x : String) (l : List String) : x ∈ insertS x l := by
  unfold insertS
  split
  · assumption
  · exact List.mem_append_right _ (List.mem_singleton.mpr rfl)

theorem mem_insertS_of_mem {y : String} {l : List String} (x : String)
    (h : y ∈ l) : y ∈ insertS x l := by
  unfold insertS
  split
  · exact h
  · exact List.mem_append_left _ h

theorem joinLoop_pairs (main_from : Option String) (path : String)
    (js : List JoinInfo) (nodes : List String)
    (pairs : List (String × String × String × Option String × String)) :
    (joinLoop main_from path js nodes pairs).2 =
      pairs ++
        (match main_from with
         | some m => js.map (fun j => (m, j.table, j.join_type, j.join_key, path))
         | none => []) := by
  induction js generalizing nodes pairs with
  | nil => cases main_from <;> simp [joinLoop]
  | cons j js ih =>
    cases main_from <;> simp [joinLoop, ih]

theorem joinLoop_nodes_mono {x : String} (main_from : Option String)
    (path : String) (js : List JoinInfo) {nodes : List String}
    (pairs : List (String × String × String × Option String × String))
    (h : x ∈ nodes) : x ∈ (joinLoop main_from path js nodes pairs).1 := by
  induction js generalizing nodes pairs with
  | nil => exact h
  | cons j js ih => exact ih _ (mem_insertS_of_mem _ h)

theorem joinLoop_table_mem {j : JoinInfo} (main_from : Option String)
    (path : String) {js : List JoinInfo} (nodes : List String)
    (pairs : List (String × String × String × Option String × String))
    (h : j ∈ js) : j.table ∈ (joinLoop main_from path js nodes pairs).1 := by
  induction js generalizing nodes pairs with
  | nil => cases h
  | cons j' js ih =>
    rcases List.mem_cons.mp h with h' | h'
    · subst h'
      simp only [joinLoop]
      exact joinLoop_nodes_mono _ _ _ _ (mem_insertS_self _ _)
    · simp only [joinLoop]
      exact ih _ _ h'

/-- If no main FROM source is found, `_collect_sources` returns no joins. -/
theorem collectSources_none {stmt : List Char} {cat : String}
    (h : (collectSources stmt cat).1 = none) : collectSources stmt cat = (none, []) := by
  rcases hpm : pickMainFrom (extractCteNames stmt) cat (fromIter stmt) with _ | m
  · simp [collectSources, hpm]
  · simp [collectSources, hpm] at h

theorem foldl_preserve {α β : Type} {P : α → Prop} (f : α → β → α)
    (hf : ∀ a b, P a → P (f a b)) :
    ∀ (l : List β) (a : α), P a → P (l.foldl f a) := by
  intro l
  induction l with
  | nil => intro a h; exact h
  | cons x xs ih => intro a h; exact ih _ (hf _ _ h)

/-- Every lineage edge ever appended carries the op label `FROM`. -/
theorem stepStmt_lineage_op (path : String) (hits : List (Nat × String))
    (st : PState) (stmt : List Char)
    (h : ∀ e ∈ st.edges_lineage, e.2.2.1 = "FROM") :
    ∀ e ∈ (stepStmt path hits st stmt).edges_lineage, e.2.2.1 = "FROM" := by
  unfold stepStmt
  split
  · exact h
  · split
    · split
      · split
        · simpa using h
        · simpa using h
      · exact h
    · split
      · exact h
      · simp only
        cases hmf : (collectSources stmt st.current_catalog).1 with
        | none => simpa [hmf] using h
        | some m =>
          simp only [hmf]
          intro e he
          rcases List.mem_append.mp he with h' | h'
          · exact h e h'
          · rcases List.mem_singleton.mp h' with rfl
            rfl

/-- All edge endpoints recorded so far are members of the node set. -/
def endpointsOk (st : PState) : Prop :=
  (∀ e ∈ st.edges_lineage, e.1 ∈ st.nodes ∧ e.2.1 ∈ st.nodes) ∧
  (∀ e ∈ st.edges_pairs, e.1 ∈ st.nodes ∧ e.2.1 ∈ st.nodes) ∧
  (∀ e ∈ st.edges_usage, e.1 ∈ st.nodes ∧ e.2.1 ∈ st.nodes)

theorem stepStmt_endpointsOk (path : String) (hits : List (Nat × String))
    (st : PState) (stmt : List Char) (h : endpointsOk st) :
    endpointsOk (stepStmt path hits st stmt) := by
  obtain ⟨hl, hp, hu⟩ := h
  unfold stepStmt
  split
  · exact ⟨hl, hp, hu⟩
  · split
    · split
      · split
        · exact ⟨by simpa using hl, by simpa using hp, by simpa using hu⟩
        · exact ⟨by simpa using hl, by simpa using hp, by simpa using hu⟩
      · exact ⟨hl, hp, hu⟩
    · split
      · exact ⟨hl, hp, hu⟩
      · -- the main branch
        next kind dest_raw _ _ _ =>
        simp only
        cases hmf : (collectSources stmt st.current_catalog).1 with
        | none =>
          simp only [hmf]
          constructor
          · intro e he
            have := hl e he
            exact ⟨joinLoop_nodes_mono _ _ _ _ (mem_insertS_of_mem _ this.1),
                   joinLoop_nodes_mono _ _ _ _ (mem_insertS_of_mem _ this.2)⟩
          constructor
          · intro e he
            rw [joinLoop_pairs] at he
            rcases List.mem_append.mp he with h' | h'
            · have := hp e h'
              exact ⟨joinLoop_nodes_mono _ _ _ _ (mem_insertS_of_mem _ this.1),
                     joinLoop_nodes_mono _ _ _ _ (mem_insertS_of_mem _ this.2)⟩
            · simp at h'
          · intro e he
            rcases List.mem_append.mp he with h' | h'
            · have := hu e h'
              exact ⟨joinLoop_nodes_mono _ _ _ _ (mem_insertS_of_mem _ this.1),
                     joinLoop_nodes_mono _ _ _ _ (mem_insertS_of_mem _ this.2)⟩
            · rcases List.mem_map.mp h' with ⟨src, hsrc, rfl⟩
              have hsrc' := (List.mem_filter.mp hsrc).1
              simp only [List.nil_append] at hsrc'
              rcases List.mem_map.mp hsrc' with ⟨j, hj, rfl⟩
              exact ⟨joinLoop_table_mem _ _ _ _ hj,
                     joinLoop_nodes_mono _ _ _ _ (mem_insertS_self _ _)⟩
        | some m =>
          simp only [hmf]
          have hqt :
              qualify dest_raw st.current_catalog ∈
                (joinLoop (some m) path (collectSources stmt st.current_catalog).2
                  (insertS m (insertS (qualify dest_raw st.current_catalog) st.nodes))
                  st.edges_pairs).1 :=
            joinLoop_nodes_mono _ _ _ _
              (mem_insertS_of_mem _ (mem_insertS_self _ _))
          have hm :
              m ∈ (joinLoop (some m) path (collectSources stmt st.current_catalog).2
                  (insertS m (insertS (qualify dest_raw st.current_catalog) st.nodes))
                  st.edges_pairs).1 :=
            joinLoop_nodes_mono _ _ _ _ (mem_insertS_self _ _)
          have hold : ∀ x ∈ st.nodes,
              x ∈ (joinLoop (some m) path (collectSources stmt st.current_catalog).2
                  (insertS m (insertS (qualify dest_raw st.current_catalog) st.nodes))
                  st.edges_pairs).1 := fun x hx =>
            joinLoop_nodes_mono _ _ _ _
              (mem_insertS_of_mem _ (mem_insertS_of_mem _ hx))
          constructor
          · intro e he
            rcases List.mem_append.mp he with h' | h'
            · have := hl e h'
              exact ⟨hold _ this.1, hold _ this.2⟩
            · rcases List.mem_singleton.mp h' with rfl
              exact ⟨hm, hqt⟩
          constructor
          · intro e he
            rw [joinLoop_pairs] at he
            rcases List.mem_append.mp he with h' | h'
            · have := hp e h'
              exact ⟨hold _ this.1, hold _ this.2⟩
            · simp only at h'
              rcases List.mem_map.mp h' with ⟨j, hj, rfl⟩
              exact ⟨hm, joinLoop_table_mem _ _ _ _ hj⟩
          · intro e he
            rcases List.mem_append.mp he with h' | h'
            · have := hu e h'
              exact ⟨hold _ this.1, hold _ this.2⟩
            · rcases List.mem_map.mp h' with ⟨src, hsrc, rfl⟩
              have hsrc' := (List.mem_filter.mp hsrc).1
              rcases List.mem_append.mp hsrc' with h'' | h''
              · rcases List.mem_singleton.mp h'' with rfl
                exact ⟨hm, hqt⟩
              · rcases List.mem_map.mp h'' with ⟨j, hj, rfl⟩
                exact ⟨joinLoop_table_mem _ _ _ _ hj, hqt⟩

/-- Appending one more file to the aggregation contributes exactly that
file's fresh parse (seeded from the default catalog), independently of
the preceding files. -/
theorem aggregateRaw_snoc (files : List SqlFile) (f : SqlFile)
    (default_catalog : String) :
    (aggregateRaw (files ++ [f]) default_catalog).statements =
      (aggregateRaw files default_catalog).statements ++
        (parseFile f.path f.text default_catalog).statements := by
  unfold aggregateRaw
  rw [List.foldl_append]
  rfl

/-! ### Facts about `Char.toUpper` and `splitOnChar` used for the
qualified-name invariant -/

/-- A lowercase ASCII letter, expressed on code points. -/
def lowerAscii (c : Char) : Prop := 97 ≤ c.toNat ∧ c.toNat ≤ 122

instance (c : Char) : Decidable (lowerAscii c) := by
  unfold lowerAscii; infer_instance

theorem toUpper_of_not_lowerAscii {c : Char} (h : ¬ lowerAscii c) :
    c.toUpper = c := by
  unfold Char.toUpper
  exact if_neg h

theorem toNat_toUpper_of_lowerAscii {c : Char} (h : lowerAscii c) :
    (c.toUpper).toNat = c.toNat - 32 := by
  have h2 : c.toNat ≤ 122 := h.2
  have h1 : c.toUpper = Char.ofNat (c.toNat - 32) := by
    unfold Char.toUpper
    exact if_pos ⟨h.1, h.2⟩
  rw [h1]
  have hv : (c.toNat - 32).isValidChar := Or.inl (by omega)
  rw [Char.ofNat, dif_pos hv]
  rfl

/-- Upper-casing never produces a lowercase ASCII letter. -/
theorem not_lowerAscii_toUpper (c : Char) : ¬ lowerAscii c.toUpper := by
  by_cases h : lowerAscii c
  · have := toNat_toUpper_of_lowerAscii h
    unfold lowerAscii at h ⊢
    omega
  · rw [toUpper_of_not_lowerAscii h]
    exact h

/-- Upper-casing maps only `d` itself to a character `d` outside the
ASCII uppercase range. -/
theorem eq_of_toUpper_eq {c d : Char} (hd : d.toNat < 65 ∨ 90 < d.toNat)
    (h : c.toUpper = d) : c = d := by
  by_cases hl : lowerAscii c
  · have h1 := toNat_toUpper_of_lowerAscii hl
    rw [h] at h1
    unfold lowerAscii at hl
    omega
  · rw [toUpper_of_not_lowerAscii hl] at h
    exact h

/-- The two defining equations of `splitOnChar`, for rewriting. -/
theorem splitOnChar_cons (sep c : Char) (l : List Char) :
    splitOnChar sep (c :: l) =
      if c = sep then [] :: splitOnChar sep l
      else (c :: (splitOnChar sep l).headI) :: (splitOnChar sep l).tail := rfl

/-- `splitOnChar` never returns the empty list of pieces. -/
theorem splitOnChar_ne_nil (sep : Char) (l : List Char) :
    splitOnChar sep l ≠ [] := by
  induction l with
  | nil => simp [splitOnChar]
  | cons c rest ih =>
    rw [splitOnChar_cons]
    by_cases hc : c = sep
    · rw [if_pos hc]; simp
    · rw [if_neg hc]; simp

/-- No piece produced by `splitOnChar` contains the separator. -/
theorem splitOnChar_not_mem (sep : Char) :
    ∀ l : List Char, ∀ p ∈ splitOnChar sep l, sep ∉ p := by
  intro l
  induction l with
  | nil =>
    intro p hp
    rcases List.mem_singleton.mp hp with rfl
    simp
  | cons c rest ih =>
    intro p hp
    rw [splitOnChar_cons] at hp
    by_cases hc : c = sep
    · rw [if_pos hc] at hp
      rcases List.mem_cons.mp hp with rfl | hp'
      · simp
      · exact ih p hp'
    · rw [if_neg hc] at hp
      rcases hr : splitOnChar sep rest with _ | ⟨h0, t0⟩
      · exact absurd hr (splitOnChar_ne_nil sep rest)
      · rw [hr] at hp
        simp only [List.headI, List.tail_cons] at hp
        rcases List.mem_cons.mp hp with rfl | hp'
        · intro hmem
          rcases List.mem_cons.mp hmem with rfl | hmem'
          · exact hc rfl
          · exact ih h0 (hr ▸ List.mem_cons_self _ _) hmem'
        · exact ih p (hr ▸ List.mem_cons_of_mem _ hp')

/-- Splitting a separator-free prefix: the first piece is that prefix. -/
theorem splitOnChar_append (sep : Char) (a b : List Char) (ha : sep ∉ a) :
    splitOnChar sep (a ++ sep :: b) = a :: splitOnChar sep b := by
  induction a with
  | nil => simp [splitOnChar]
  | cons c a ih =>
    have hc : c ≠ sep := fun h => ha (h ▸ List.mem_cons_self _ _)
    have ha' : sep ∉ a := fun h => ha (List.mem_cons_of_mem _ h)
    rw [List.cons_append, splitOnChar_cons, if_neg hc, ih ha']
    rfl

/-- Splitting a separator-free list yields a single piece. -/
theorem splitOnChar_of_not_mem (sep : Char) (l : List Char) (h : sep ∉ l) :
    splitOnChar sep l = [l] := by
  induction l with
  | nil => rfl
  | cons c rest ih =>
    have hc : c ≠ sep := fun h' => h (h' ▸ List.mem_cons_self _ _)
    have h' : sep ∉ rest := fun h' => h (List.mem_cons_of_mem _ h')
    rw [splitOnChar_cons, if_neg hc, ih h']
    rfl

/-! ### The qualified-name invariant -/

/-- A well-formed segment of a qualified name: non-empty, free of dots
and quotes, containing no lowercase ASCII letter (i.e. upper-cased). -/
def goodSeg (l : List Char) : Prop :=
  l ≠ [] ∧ '.' ∉ l ∧ '"' ∉ l ∧ ∀ c ∈ l, ¬ lowerAscii c

instance : DecidablePred goodSeg := fun l => by
  unfold goodSeg
  infer_instance

theorem goodSeg_DBO : goodSeg "DBO".data := by decide

theorem goodSeg_fallback : goodSeg "?".data := by decide

/-- Splitting `c ++ '.' :: s ++ '.' :: t` at dots recovers `[c, s, t]`
when the three components are dot-free. -/
theorem splitOnChar_three (c s t : List Char)
    (hc : '.' ∉ c) (hs : '.' ∉ s) (ht : '.' ∉ t) :
    splitOnChar '.' (c ++ '.' :: s ++ '.' :: t) = [c, s, t] := by
  have h1 : s ++ '.' :: t = s ++ '.' :: t := rfl
  rw [show c ++ '.' :: s ++ '.' :: t = c ++ '.' :: (s ++ '.' :: t) by simp]
  rw [splitOnChar_append _ _ _ hc, splitOnChar_append _ _ _ hs,
      splitOnChar_of_not_mem _ _ ht]

/-- `qualify` always produces three `goodSeg` components, provided the
current catalog is itself a good segment and every non-empty piece of
the identifier normalises to a good segment. -/
theorem qualify_three (name cat : String) (hcat : goodSeg cat.data)
    (hparts : ∀ p ∈ (splitOnChar '.' name.data).map stripWs,
        p ≠ [] → goodSeg (normalizePart p)) :
    ∃ c s t, (qualify name cat).data = c ++ '.' :: s ++ '.' :: t ∧
      goodSeg c ∧ goodSeg s ∧ goodSeg t := by
  have hclean : ∀ x ∈ qualifyParts name, goodSeg x := by
    intro x hx
    rcases List.mem_map.mp hx with ⟨p, hp, rfl⟩
    have hf := List.mem_filter.mp hp
    exact hparts p hf.1 (by simpa using hf.2)
  have hrevmem : ∀ x ∈ (qualifyParts name).reverse, goodSeg x := by
    intro x hx
    exact hclean x (List.mem_reverse.mp hx)
  rcases hrev : (qualifyParts name).reverse with _ | ⟨t, _ | ⟨sc, _ | ⟨ca, rest⟩⟩⟩
  · refine ⟨cat.data, "DBO".data, "?".data, ?_, hcat, goodSeg_DBO, goodSeg_fallback⟩
    unfold qualify
    rw [hrev]
  · refine ⟨cat.data, "DBO".data, t, ?_, hcat, goodSeg_DBO,
      hrevmem t (hrev ▸ List.mem_cons_self _ _)⟩
    unfold qualify
    rw [hrev]
  · refine ⟨cat.data, sc, t, ?_,
      hcat,
      hrevmem sc (hrev ▸ List.mem_cons_of_mem _ (List.mem_cons_self _ _)),
      hrevmem t (hrev ▸ List.mem_cons_self _ _)⟩
    unfold qualify
    rw [hrev]
  · refine ⟨ca, sc, t, ?_,
      hrevmem ca (hrev ▸ List.mem_cons_of_mem _
        (List.mem_cons_of_mem _ (List.mem_cons_self _ _))),
      hrevmem sc (hrev ▸ List.mem_cons_of_mem _ (List.mem_cons_self _ _)),
      hrevmem t (hrev ▸ List.mem_cons_self _ _)⟩
    unfold qualify
    rw [hrev]

/-! ### The claims -/

/-- C1, counterexample: a statement classified `CREATE TEMP TABLE` whose
table name contains neither `TEMP` nor `TMP` is **not** flagged
temporary, contradicting the claimed "if and only if" (its left-to-right
direction for the temp-by-declaration disjunct). -/
theorem C1_counterexample :
    (parseFile "f.sql" "CREATE TEMP TABLE FOO AS SELECT * FROM X" "D").statements.map
        (fun s => s.kind) = ["CREATE TEMP TABLE"] ∧
    (parseFile "f.sql" "CREATE TEMP TABLE FOO AS SELECT * FROM X" "D").temporals = [] ∧
    (parseFile "f.sql" "CREATE TEMP TABLE FOO AS SELECT * FROM X" "D").temp_known = [] := by
  decide

/-- C1 (amended): for every parsed (classified, non-directive) statement,
the target is added to `temporals` and `temp_known` if and only if the
bare table segment of the qualified target contains `TEMP` or `TMP` as a
case-insensitive **substring**; the statement's classification (in
particular `CREATE TEMP/TEMPORARY TABLE`) plays no role. -/
theorem C1_amended (path : String) (hits : List (Nat × String)) (st : PState)
    (stmt : List Char) (kind dest_raw : String)
    (hk : statementKind stmt = some (kind, dest_raw))
    (hset : kind ≠ "SET CATALOG") (hd : dest_raw ≠ "") :
    (stepStmt path hits st stmt).temporals =
      (if isTemporary (lastDotSegment (qualify dest_raw st.current_catalog)) then
        insertS (qualify dest_raw st.current_catalog) st.temporals
      else st.temporals) ∧
    (stepStmt path hits st stmt).temp_known =
      (if isTemporary (lastDotSegment (qualify dest_raw st.current_catalog)) then
        insertS (qualify dest_raw st.current_catalog) st.temp_known
      else st.temp_known) := by
  unfold stepStmt
  simp only [hk]
  rw [if_neg hset, if_neg hd]
  exact ⟨rfl, rfl⟩

/-- C1 witness: a plain `CREATE TABLE` statement with a `TMP`-named
target is flagged. -/
theorem C1_amended_witness :
    (stepStmt "f" [] (initState "D") ("CREATE TABLE TMP_T".data)).temporals
      = ["D.DBO.TMP_T"] ∧
    (stepStmt "f" [] (initState "D") ("CREATE TABLE TMP_T".data)).temp_known
      = ["D.DBO.TMP_T"] := by
  have h := C1_amended "f" [] (initState "D") ("CREATE TABLE TMP_T".data)
    "CREATE TABLE" "TMP_T" (by decide) (by decide) (by decide)
  exact ⟨h.1.trans (by decide), h.2.trans (by decide)⟩

/-- C2: evaluating `_extract_join_key` at the spec's own examples.  The
trailing non-greedy group of `_ON_KEY_RE` captures a single character,
so `ON a.id = b.customer_id` yields `ID=B` (not `ID=CUSTOMER_ID`) and
`ON a.id = b.id` also yields `ID=B` (not `ID`). -/
theorem C2_code_eval :
    extractJoinKey (some "a.id = b.customer_id") = some "ID=B" ∧
    extractJoinKey (some "a.id = b.id") = some "ID=B" ∧
    (some "ID=B" : Option String) ≠ some "ID=CUSTOMER_ID" ∧
    (some "ID=B" : Option String) ≠ some "ID" := by
  decide

/-- C5: when no main FROM source is found in a classified statement, no
join entries are produced, no join-pair edge and no lineage edge is
appended, and the qualified target is still added to the node set. -/
theorem C5_ok (path : String) (hits : List (Nat × String)) (st : PState)
    (stmt : List Char) (kind dest_raw : String)
    (hk : statementKind stmt = some (kind, dest_raw))
    (hset : kind ≠ "SET CATALOG") (hd : dest_raw ≠ "")
    (hmf : (collectSources stmt st.current_catalog).1 = none) :
    (collectSources stmt st.current_catalog).2 = [] ∧
    (stepStmt path hits st stmt).edges_pairs = st.edges_pairs ∧
    (stepStmt path hits st stmt).edges_lineage = st.edges_lineage ∧
    qualify dest_raw st.current_catalog ∈ (stepStmt path hits st stmt).nodes := by
  have hcs := collectSources_none hmf
  have h2 : (collectSources stmt st.current_catalog).2 = [] := by rw [hcs]
  refine ⟨h2, ?_, ?_, ?_⟩
  · unfold stepStmt
    simp only [hk]
    rw [if_neg hset, if_neg hd]
    simp only [hmf, h2]
    rfl
  · unfold stepStmt
    simp only [hk]
    rw [if_neg hset, if_neg hd]
    simp only [hmf]
  · unfold stepStmt
    simp only [hk]
    rw [if_neg hset, if_neg hd]
    simp only [hmf, h2]
    exact mem_insertS_self _ _

/-- C5 witness: `CREATE TABLE T` (no FROM clause at all). -/
theorem C5_ok_witness :
    (collectSources ("CREATE TABLE T".data) "D").2 = [] ∧
    (stepStmt "f" [] (initState "D") ("CREATE TABLE T".data)).edges_pairs = [] ∧
    (stepStmt "f" [] (initState "D") ("CREATE TABLE T".data)).edges_lineage = [] ∧
    ("D.DBO.T" : String) ∈ (stepStmt "f" [] (initState "D") ("CREATE TABLE T".data)).nodes := by
  have h := C5_ok "f" [] (initState "D") ("CREATE TABLE T".data)
    "CREATE TABLE" "T" (by decide) (by decide) (by decide) (by decide)
  exact ⟨h.1, h.2.1, h.2.2.1, h.2.2.2⟩

/-- C9: a statement whose target is temp-by-name and which reads the same
qualified name as its main FROM source emits a usage edge from the name
to itself — the creating statement counts as a use, because the target
enters the known-temporary set before the statement's sources are
checked. -/
theorem C9_ok :
    (parseFile "f.sql" "CREATE TABLE TMP_X AS SELECT * FROM TMP_X" "D").edges_usage
      = [("D.DBO.TMP_X", "D.DBO.TMP_X", "UTILIZADO EN", "f.sql")] ∧
    (parseFile "f.sql" "CREATE TABLE TMP_X AS SELECT * FROM TMP_X" "D").statements
      = [{ id_stmt := 1, file := "f.sql", target := "D.DBO.TMP_X",
           kind := "CREATE TABLE", from_main := some "D.DBO.TMP_X",
           joins := [] }] := by
  decide

/-- C3, counterexample: `CREATE TEMP TABLE S1 AS SELECT * FROM A;
CREATE TABLE S2 AS SELECT * FROM S1;` produces **no** usage edge at all
(neither with op `USED_IN` nor any other): the `CREATE TEMP TABLE`
classification never enters the known-temporary set, and `S1` is not
temp-by-name. -/
theorem C3_counterexample :
    (parseFile "f.sql"
      "CREATE TEMP TABLE S1 AS SELECT * FROM A; CREATE TABLE S2 AS SELECT * FROM S1"
      "D").edges_usage = [] := by
  decide

/-- C3 (amended): a usage edge `(source, target, "UTILIZADO EN", file)`
is emitted for a source of a classified statement exactly when that
source is in the known-temporary set at that point in statement order
(the set holds the targets whose table segment contains `TEMP`/`TMP`,
including the current statement's own target, added first); and the
name-based variant of the spec's ordering example behaves as claimed. -/
theorem C3_amended :
    (∀ (path : String) (hits : List (Nat × String)) (st : PState)
        (stmt : List Char) (kind dest_raw : String),
      statementKind stmt = some (kind, dest_raw) →
      kind ≠ "SET CATALOG" → dest_raw ≠ "" →
      (stepStmt path hits st stmt).edges_usage =
        st.edges_usage ++
          (((collectSources stmt st.current_catalog).1.toList ++
              (collectSources stmt st.current_catalog).2.map
                (fun j => j.table)).filter
            (fun src => src ∈
              (if isTemporary (lastDotSegment (qualify dest_raw st.current_catalog)) then
                insertS (qualify dest_raw st.current_catalog) st.temp_known
              else st.temp_known))).map
            (fun src =>
              (src, qualify dest_raw st.current_catalog, "UTILIZADO EN", path))) ∧
    (parseFile "f.sql"
      "CREATE TABLE TMP_S1 AS SELECT * FROM A; CREATE TABLE S2 AS SELECT * FROM TMP_S1"
      "D").edges_usage
      = [("D.DBO.TMP_S1", "D.DBO.S2", "UTILIZADO EN", "f.sql")] ∧
    (parseFile "f.sql"
      "CREATE TABLE S2 AS SELECT * FROM TMP_S1; CREATE TABLE TMP_S1 AS SELECT * FROM A"
      "D").edges_usage = [] := by
  refine ⟨?_, by decide, by decide⟩
  intro path hits st stmt kind dest_raw hk hset hd
  unfold stepStmt
  simp only [hk]
  rw [if_neg hset, if_neg hd]

/-- C3 witness: the self-use statement instantiating the general
equation. -/
theorem C3_amended_witness :
    (stepStmt "f" [] (initState "D")
        ("CREATE TABLE TMP_A AS SELECT * FROM TMP_A".data)).edges_usage
      = [("D.DBO.TMP_A", "D.DBO.TMP_A", "UTILIZADO EN", "f")] := by
  have h := (C3_amended).1 "f" [] (initState "D")
    ("CREATE TABLE TMP_A AS SELECT * FROM TMP_A".data) "CREATE TABLE" "TMP_A"
    (by decide) (by decide) (by decide)
  exact h.trans (by decide)

/-- C4, counterexample: the lineage edge produced by a `CREATE VIEW`
statement carries the op label `FROM`, not `CREATE VIEW`, so the op does
not match the statement kind. -/
theorem C4_counterexample :
    (parseFile "f.sql" "CREATE VIEW V AS SELECT * FROM X" "D").statements.map
        (fun s => s.kind) = ["CREATE VIEW"] ∧
    (parseFile "f.sql" "CREATE VIEW V AS SELECT * FROM X" "D").edges_lineage
      = [("D.DBO.X", "D.DBO.V", "FROM", "f.sql")] ∧
    ("FROM" : String) ≠ "CREATE VIEW" := by
  decide

/-- C4 (amended): every lineage edge emitted by the per-file parser
carries the constant op label `FROM`, regardless of the kind of the
statement that produced the target. -/
theorem C4_amended (path text default_catalog : String) :
    ∀ e ∈ (parseFile path text default_catalog).edges_lineage,
      e.2.2.1 = "FROM" := by
  unfold parseFile
  refine foldl_preserve (P := fun st => ∀ e ∈ st.edges_lineage, e.2.2.1 = "FROM")
    _ (fun st stmt h => stepStmt_lineage_op _ _ st stmt h) _ _ ?_
  intro e he
  exact absurd he (List.not_mem_nil e)

/-- C4 witness: the `CREATE VIEW` edge instantiates the invariant. -/
theorem C4_amended_witness :
    ("D.DBO.X", "D.DBO.V", "FROM", "f.sql") ∈
      (parseFile "f.sql" "CREATE VIEW V AS SELECT * FROM X" "D").edges_lineage ∧
    (("D.DBO.X", "D.DBO.V", "FROM", "f.sql") :
        String × String × String × String).2.2.1 = "FROM" :=
  ⟨by decide,
   C4_amended "f.sql" "CREATE VIEW V AS SELECT * FROM X" "D" _ (by decide)⟩

/-- C6: a `SET CATALOG` directive re-qualifies all subsequent statements
of the same file (the spec's example, with default catalog `D`, yields
target `A.DBO.T` and source `A.DBO.X`), and aggregation parses every
file fresh from the caller-supplied default catalog, so directives do
not carry over across files (second conjunct: a following file without a
directive resolves to `D.*`; third conjunct: each appended file
contributes exactly its independent fresh parse). -/
theorem C6_ok :
    (parseFile "f1" "SET CATALOG A; CREATE TABLE T AS SELECT * FROM X" "D").statements
      = [{ id_stmt := 1, file := "f1", target := "A.DBO.T",
           kind := "CREATE TABLE", from_main := some "A.DBO.X", joins := [] }] ∧
    (aggregate [⟨"f1", "SET CATALOG A; CREATE TABLE T AS SELECT * FROM X"⟩,
                ⟨"f2", "CREATE TABLE U AS SELECT * FROM Y"⟩] "D").statements
      = [{ id_stmt := 1, file := "f1", target := "A.DBO.T",
           kind := "CREATE TABLE", from_main := some "A.DBO.X", joins := [] },
         { id_stmt := 1, file := "f2", target := "D.DBO.U",
           kind := "CREATE TABLE", from_main := some "D.DBO.Y", joins := [] }] ∧
    (∀ (files : List SqlFile) (f : SqlFile) (d : String),
      (aggregate (files ++ [f]) d).statements =
        (aggregate files d).statements ++
          (parseFile f.path f.text d).statements) := by
  refine ⟨by decide, by decide, ?_⟩
  intro files f d
  exact aggregateRaw_snoc files f d

/-- C7: aggregating the same file twice, join-pair and usage edges are
deduplicated by full-tuple equality down to one entry each, while the
identical lineage edges remain duplicated (two per statement pair). -/
theorem C7_ok :
    (aggregate
      [⟨"f", "CREATE TABLE TMP_A AS SELECT * FROM S; CREATE TABLE T AS SELECT * FROM TMP_A JOIN B ON TMP_A.ID=B.ID"⟩,
       ⟨"f", "CREATE TABLE TMP_A AS SELECT * FROM S; CREATE TABLE T AS SELECT * FROM TMP_A JOIN B ON TMP_A.ID=B.ID"⟩]
      "D").edges_pairs
      = [("D.DBO.TMP_A", "D.DBO.B", "INNER", some "ID=B", "f")] ∧
    (aggregate
      [⟨"f", "CREATE TABLE TMP_A AS SELECT * FROM S; CREATE TABLE T AS SELECT * FROM TMP_A JOIN B ON TMP_A.ID=B.ID"⟩,
       ⟨"f", "CREATE TABLE TMP_A AS SELECT * FROM S; CREATE TABLE T AS SELECT * FROM TMP_A JOIN B ON TMP_A.ID=B.ID"⟩]
      "D").edges_usage
      = [("D.DBO.TMP_A", "D.DBO.T", "UTILIZADO EN", "f")] ∧
    (aggregate
      [⟨"f", "CREATE TABLE TMP_A AS SELECT * FROM S; CREATE TABLE T AS SELECT * FROM TMP_A JOIN B ON TMP_A.ID=B.ID"⟩,
       ⟨"f", "CREATE TABLE TMP_A AS SELECT * FROM S; CREATE TABLE T AS SELECT * FROM TMP_A JOIN B ON TMP_A.ID=B.ID"⟩]
      "D").edges_lineage
      = [("D.DBO.S", "D.DBO.TMP_A", "FROM", "f"),
         ("D.DBO.TMP_A", "D.DBO.T", "FROM", "f"),
         ("D.DBO.S", "D.DBO.TMP_A", "FROM", "f"),
         ("D.DBO.TMP_A", "D.DBO.T", "FROM", "f")] := by
  decide

/-- C8, counterexample: the raw identifier `""` (a quoted empty
identifier) qualifies to `D.DBO.` — three segments, but the table
segment is empty, refuting "exactly 3 non-empty segments" for every raw
identifier. -/
theorem C8_counterexample :
    qualify "\"\"" "D" = "D.DBO." ∧
    [] ∈ splitOnChar '.' (qualify "\"\"" "D").data := by
  decide

/-- C8 (amended): the qualified name splits on `.` into exactly 3
segments, each non-empty, dot-free, quote-free and upper-cased, provided
the current catalog is itself such a segment and every non-empty piece
of the raw identifier still normalises (whitespace-strip, quote-strip,
upper-case) to such a segment. -/
theorem C8_amended (name cat : String) (hcat : goodSeg cat.data)
    (hparts : ∀ p ∈ (splitOnChar '.' name.data).map stripWs,
        p ≠ [] → goodSeg (normalizePart p)) :
    (splitOnChar '.' (qualify name cat).data).length = 3 ∧
    ∀ sg ∈ splitOnChar '.' (qualify name cat).data, goodSeg sg := by
  obtain ⟨c, s, t, he, hc, hs, ht⟩ := qualify_three name cat hcat hparts
  rw [he, splitOnChar_three c s t hc.2.1 hs.2.1 ht.2.1]
  refine ⟨rfl, ?_⟩
  intro sg hsg
  rcases List.mem_cons.mp hsg with rfl | hsg1
  · exact hc
  rcases List.mem_cons.mp hsg1 with rfl | hsg2
  · exact hs
  rcases List.mem_singleton.mp hsg2 with rfl
  exact ht

/-- C8 witness: a two-part identifier under catalog `D`. -/
theorem C8_amended_witness :
    (splitOnChar '.' (qualify "foo.bar" "D").data).length = 3 ∧
    ∀ sg ∈ splitOnChar '.' (qualify "foo.bar" "D").data, goodSeg sg :=
  C8_amended "foo.bar" "D" (by decide) (by decide)

/-- C10: in every per-file parse result, the source and target of each
lineage edge, both tables of each join-pair edge, and the source and
target of each usage edge are members of the returned node set. -/
theorem C10_ok (path text default_catalog : String) :
    endpointsOk (parseFile path text default_catalog) := by
  unfold parseFile
  refine foldl_preserve (P := endpointsOk)
    _ (fun st stmt h => stepStmt_endpointsOk _ _ st stmt h) _ _ ?_
  exact ⟨fun e he => absurd he (List.not_mem_nil e),
         fun e he => absurd he (List.not_mem_nil e),
         fun e he => absurd he (List.not_mem_nil e)⟩

/-- C10 witness: the self-usage parse instantiates the invariant. -/
theorem C10_ok_witness :
    ("D.DBO.TMP_X", "D.DBO.TMP_X", "UTILIZADO EN", "f.sql") ∈
      (parseFile "f.sql" "CREATE TABLE TMP_X AS SELECT * FROM TMP_X" "D").edges_usage ∧
    "D.DBO.TMP_X" ∈
      (parseFile "f.sql" "CREATE TABLE TMP_X AS SELECT * FROM TMP_X" "D").nodes := by
  refine ⟨by decide, ?_⟩
  exact ((C10_ok "f.sql" "CREATE TABLE TMP_X AS SELECT * FROM TMP_X" "D").2.2
    ("D.DBO.TMP_X", "D.DBO.TMP_X", "UTILIZADO EN", "f.sql") (by decide)).1

end SqlLineage
